import Mathlib

/-!
Verification of the FotoFiler naming and organization engine.

The definitions below are a shallow embedding of `fotofiler/core/naming.py`
(class `NamingEngine`) and `fotofiler/core/organization.py`
(class `OrganizationEngine`).  Strings are Lean `String`s; character-level
work happens on `String.data` (`List Char`).  Attribute maps
(Python `Dict[str, Any]` whose values are used via `str(...)`) are modelled
as association lists `List (String × String)`; lookup returns the first
binding, mirroring the unique keys of a Python dict.  The filesystem is
modelled as an explicit state (`FS`): a list of existing file paths and a
list of existing directory paths.  Python loops that are not structurally
recursive are written with an explicit fuel argument chosen large enough
that the fuel never runs out on the executions the source can perform;
adequacy is proved where a claim depends on it.  Unicode-only aspects of
Python's regex class `\w` are out of scope: `isWordChar` covers the ASCII
word characters, which is faithful for all ASCII patterns.
-/

namespace FotoFiler

/-- Association-list lookup used to model Python dict membership and
indexing: returns the value of the first matching key. -/
def lookupAttr (metadata : List (String × String)) (key : String) : Option String :=
  match metadata with
  | [] => none
  | (k, v) :: rest => if k = key then some v else lookupAttr rest key

/-- Embedding of the character class in `naming.py` line 107:
`invalid_chars = r'[<>:"/\\|?*]'`. -/
def isInvalidChar (c : Char) : Bool :=
  c = '<' || c = '>' || c = ':' || c = '"' || c = '/' || c = '\\' || c = '|' || c = '?' || c = '*'

/-- Loop body of Python `str.replace(pat, rep)` (replace every
non-overlapping occurrence, left to right).  The fuel argument is the
number of characters still allowed to be consumed; `replaceAll` passes
`cs.length`, which is adequate because every step consumes at least one
character of `cs` when `pat` is non-empty. -/
def replaceAllAux : Nat → List Char → List Char → List Char → List Char
  | 0, cs, _, _ => cs
  | fuel + 1, cs, pat, rep =>
    match cs with
    | [] => []
    | c :: rest =>
      if pat.isPrefixOf (c :: rest) then
        rep ++ replaceAllAux fuel ((c :: rest).drop pat.length) pat rep
      else
        c :: replaceAllAux fuel rest pat rep

/-- Embedding of Python `cs.replace(pat, rep)`.  All call sites in the
source use a needle of the shape `"{" + name + "}"`, which is never empty;
the empty-needle guard only makes the function total. -/
def replaceAll (cs pat rep : List Char) : List Char :=
  if pat = [] then cs else replaceAllAux cs.length cs pat rep

/-- Helper for the regex `{([^{}]+)}`: after an opening brace, try to read
one or more non-brace characters followed by a closing brace.  Returns the
captured name and the remainder after the closing brace. -/
def captureAfterBrace : List Char → List Char → Option (List Char × List Char)
  | [], _ => none
  | c :: rest, acc =>
    if c = '}' then
      if acc = [] then none else some (acc.reverse, rest)
    else if c = '{' then none
    else captureAfterBrace rest (c :: acc)

/-- Scanner equivalent to `re.findall(r'{([^{}]+)}', s)`: scan for `'{'`;
on a failed capture the regex engine resumes right after that `'{'`, on a
successful capture it resumes after the closing brace.  Fuel is the string
length, adequate because the scanner always advances. -/
def findPlaceholdersAux : Nat → List Char → List (List Char)
  | 0, _ => []
  | fuel + 1, cs =>
    match cs with
    | [] => []
    | c :: rest =>
      if c = '{' then
        match captureAfterBrace rest [] with
        | some (name, rest') => name :: findPlaceholdersAux fuel rest'
        | none => findPlaceholdersAux fuel rest
      else findPlaceholdersAux fuel rest

/-- Embedding of `re.findall(r'{([^{}]+)}', s)` as used by
`NamingEngine.generate_filename` (the compiled `placeholder_regex`) and by
`OrganizationEngine.determine_destination_path`. -/
def findPlaceholders (cs : List Char) : List (List Char) :=
  findPlaceholdersAux cs.length cs

/-- Embedding of `re.sub(r'[<>:"/\\|?*]', '_', filename)`
(`naming.py` line 108). -/
def replaceInvalid (cs : List Char) : List Char :=
  cs.map (fun c => if isInvalidChar c then '_' else c)

/-- Single pass that collapses each maximal run of underscores to one
underscore; the Boolean records whether the previous emitted position sits
inside an underscore run.  Equivalent to `re.sub(r'_+', '_', s)`
(`naming.py` line 111). -/
def collapseAux : Bool → List Char → List Char
  | _, [] => []
  | prevU, c :: rest =>
    if c = '_' then
      if prevU then collapseAux true rest else '_' :: collapseAux true rest
    else c :: collapseAux false rest

/-- Embedding of `re.sub(r'_+', '_', s)`. -/
def collapseUnderscores (cs : List Char) : List Char :=
  collapseAux false cs

/-- Embedding of Python `s.strip('_')` (`naming.py` line 114): drop leading
and trailing underscores. -/
def stripUnderscores (cs : List Char) : List Char :=
  List.rdropWhile (· = '_') (List.dropWhile (· = '_') cs)

/-- Embedding of `NamingEngine._clean_filename` (`naming.py` lines 96-120):
replace reserved characters by `'_'`, collapse underscore runs, strip
leading/trailing underscores, and fall back to `"unnamed_file"` when the
result is empty. -/
def cleanFilename (cs : List Char) : List Char :=
  let r := stripUnderscores (collapseUnderscores (replaceInvalid cs))
  if r = [] then "unnamed_file".data else r

/-- String-level wrapper of `NamingEngine._clean_filename`. -/
def cleanFilenameS (s : String) : String :=
  String.mk (cleanFilename s.data)

/-- Loop body of `NamingEngine.generate_filename` (`naming.py` lines
76-85): look the placeholder up; a missing key or a value that is empty
after string conversion contributes the empty string (with a warning-level
log message, which has no effect on the result); then replace every
occurrence of the braced placeholder. -/
def substPlaceholder (metadata : List (String × String)) (acc : List Char)
    (ph : List Char) : List Char :=
  let value : String :=
    match lookupAttr metadata (String.mk ph) with
    | none => ""
    | some v => if v = "" then "" else v
  replaceAll acc ('{' :: (ph ++ ['}'])) value.data

/-- Embedding of `NamingEngine.generate_filename` (`naming.py` lines
56-94): substitute each placeholder found in the pattern, clean the result,
and append `"." + extension` verbatim when the map holds a non-empty
`extension` value. -/
def generateFilename (pattern : String) (metadata : List (String × String)) : String :=
  let placeholders := findPlaceholders pattern.data
  let newFilename := placeholders.foldl (substPlaceholder metadata) pattern.data
  let cleaned := cleanFilename newFilename
  match lookupAttr metadata "extension" with
  | some v => if v = "" then String.mk cleaned else String.mk (cleaned ++ '.' :: v.data)
  | none => String.mk cleaned

/-- ASCII word characters, the ASCII fragment of the regex class `\w`. -/
def isWordChar (c : Char) : Bool :=
  c.isAlphanum || c = '_'

/-- Matching modes for the anchored validation regex
`^[^{}]*({\w+}[^{}]*)*$` of `naming.py` line 51: scanning a literal run,
expecting the first character of a placeholder name, or continuing a
placeholder name. -/
inductive VMode where
  | lit : VMode
  | phFirst : VMode
  | phRest : VMode
deriving DecidableEq

/-- Deterministic matcher for `^[^{}]*({\w+}[^{}]*)*$`.  Determinism is
forced: `[^{}]*` can only end at a brace or at the end of the string, and
`\w+` can only end at a non-word character, which must then be `'}'`. -/
def matchRun : VMode → List Char → Bool
  | .lit, [] => true
  | .lit, c :: rest =>
    if c = '{' then matchRun .phFirst rest
    else if c = '}' then false
    else matchRun .lit rest
  | .phFirst, [] => false
  | .phFirst, c :: rest =>
    if isWordChar c then matchRun .phRest rest else false
  | .phRest, [] => false
  | .phRest, c :: rest =>
    if c = '}' then matchRun .lit rest
    else if isWordChar c then matchRun .phRest rest
    else false

/-- Embedding of Python `s.count(c)` for a single character. -/
def countChar (c : Char) (s : String) : Nat :=
  s.data.count c

/-- Embedding of `NamingEngine._validate_pattern` (`naming.py` lines
33-54): empty patterns, patterns whose brace counts differ, and patterns
rejected by `re.match(r'^[^{}]*({\w+}[^{}]*)*$', pattern)` raise
`ValueError`; anything else is accepted. -/
def validatePattern (pattern : String) : Except String Unit :=
  if pattern = "" then .error "Naming pattern cannot be empty"
  else if countChar '{' pattern ≠ countChar '}' pattern then
    .error "Naming pattern has unbalanced braces"
  else if matchRun .lit pattern.data then .ok ()
  else .error "Naming pattern has invalid placeholder format"

/-- Splits a character list at the last occurrence of `ch`: returns the
part before it and the part after it, or `none` when `ch` does not occur.
Shared helper for `os.path.dirname`, `os.path.basename` and
`os.path.splitext`. -/
def splitAtLast (ch : Char) : List Char → Option (List Char × List Char)
  | [] => none
  | c :: rest =>
    match splitAtLast ch rest with
    | some (b, a) => some (c :: b, a)
    | none => if c = ch then some ([], rest) else none

/-- Embedding of `posixpath.dirname`: everything up to and including the
last slash, with trailing slashes stripped unless the head consists only of
slashes. -/
def dirname (p : String) : String :=
  match splitAtLast '/' p.data with
  | none => ""
  | some (b, _) =>
    let head := b ++ ['/']
    if head.all (· = '/') then String.mk head
    else String.mk (List.rdropWhile (· = '/') head)

/-- Embedding of `posixpath.basename`: everything after the last slash. -/
def basename (p : String) : String :=
  match splitAtLast '/' p.data with
  | none => p
  | some (_, a) => String.mk a

/-- Embedding of `posixpath.splitext` for slash-free inputs (the source
only applies it to `os.path.basename(filepath)`): split at the last dot
unless every character before that dot is a dot. -/
def splitext (p : String) : String × String :=
  match splitAtLast '.' p.data with
  | none => (p, "")
  | some (b, a) =>
    if b.all (· = '.') then (p, "")
    else (String.mk b, String.mk ('.' :: a))

/-- Embedding of the two-argument `posixpath.join`: an absolute second
component replaces the first; otherwise insert a slash unless the first
component is empty or already ends with one. -/
def joinPath (a b : String) : String :=
  if b.data.head? = some '/' then b
  else if a = "" ∨ a.data.getLast? = some '/' then a ++ b
  else a ++ "/" ++ b

/-- Decimal digit rendering with fuel (`natToChars` passes `n` itself,
which bounds the number of digits).  Mirrors the decimal rendering that
Python's f-string `f"{name}_{counter}{ext}"` applies to the counter. -/
def natToCharsAux : Nat → Nat → List Char
  | 0, n => [Nat.digitChar (n % 10)]
  | fuel + 1, n =>
    if n < 10 then [Nat.digitChar n]
    else natToCharsAux fuel (n / 10) ++ [Nat.digitChar (n % 10)]

/-- Decimal digits of `n`, most significant first. -/
def natToChars (n : Nat) : List Char :=
  natToCharsAux n n

/-- Embedding of `f"{name}_{counter}{ext}"` from `naming.py` line 143. -/
def numberedName (name : String) (counter : Nat) (ext : String) : String :=
  String.mk (name.data ++ '_' :: (natToChars counter ++ ext.data))

/-- Path probed by `NamingEngine.handle_duplicates` for a given counter:
`os.path.join(directory, f"{name}_{counter}{ext}")`. -/
def probeAt (directory name ext : String) (c : Nat) : String :=
  joinPath directory (numberedName name c ext)

/-- Loop of `NamingEngine.handle_duplicates` (`naming.py` lines 139-145):
starting from counter 1, probe `name_counter ++ ext` inside `directory`
until the probed path does not exist.  The fuel stands for the finiteness
of the filesystem that makes the Python `while` loop terminate;
`handleDuplicates` passes one more than the number of existing paths,
which is adequate because the probed paths are pairwise distinct. -/
def handleDuplicatesAux (existing : List String) (directory name ext : String) :
    Nat → Nat → String
  | c, 0 => probeAt directory name ext c
  | c, fuel + 1 =>
    if probeAt directory name ext c ∈ existing then
      handleDuplicatesAux existing directory name ext (c + 1) fuel
    else probeAt directory name ext c

/-- Embedding of `NamingEngine.handle_duplicates` (`naming.py` lines
122-148) over an explicit list of existing paths (the result of
`os.path.exists`): return `filepath` unchanged when it does not exist,
otherwise split it into directory, stem and extension and probe
`stem_1.ext`, `stem_2.ext`, ... returning the first path that does not
exist. -/
def handleDuplicates (existing : List String) (filepath : String) : String :=
  if filepath ∈ existing then
    handleDuplicatesAux existing (dirname filepath) (splitext (basename filepath)).1
      (splitext (basename filepath)).2 1 (existing.length + 1)
  else filepath

/-- Embedding of Python `s.split(ch)` for a single-character separator:
always returns at least one (possibly empty) piece. -/
def splitOnChar (ch : Char) : List Char → List (List Char)
  | [] => [[]]
  | c :: rest =>
    match splitOnChar ch rest with
    | s :: ss => if c = ch then [] :: s :: ss else (c :: s) :: ss
    | [] => [[]]

/-- Embedding of Python `'/'.join(pieces)`. -/
def joinWithSlash : List (List Char) → List Char
  | [] => []
  | [s] => s
  | s :: rest => s ++ '/' :: joinWithSlash rest

/-- Embedding of `posixpath.normpath`: drop empty and `.` components,
resolve `..` against preceding components, and preserve the exact number
of leading slashes Python preserves (two slashes stay two, any other
number collapses to one). -/
def normpath (path : String) : String :=
  if path = "" then "."
  else
    let initialSlashes : Nat :=
      if path.data.head? = some '/' then
        if path.data.take 2 = ['/', '/'] ∧ ¬ (path.data.take 3 = ['/', '/', '/']) then 2
        else 1
      else 0
    let comps := splitOnChar '/' path.data
    let newComps := comps.foldl (fun acc comp =>
      if comp = [] ∨ comp = ['.'] then acc
      else if comp ≠ ['.', '.'] ∨ (initialSlashes = 0 ∧ acc = []) ∨
          (acc ≠ [] ∧ acc.getLast? = some ['.', '.']) then acc ++ [comp]
      else if acc ≠ [] then acc.dropLast
      else acc) []
    let res := List.replicate initialSlashes '/' ++ joinWithSlash newComps
    if res = [] then "." else String.mk res

/-- Embedding of `posixpath.isabs`. -/
def isAbs (p : String) : Bool :=
  p.data.head? = some '/'

/-- Embedding of `posixpath.abspath` with the process working directory as
an explicit parameter: join a relative path onto `cwd`, then normalize. -/
def abspath (cwd p : String) : String :=
  if isAbs p then normpath p else normpath (joinPath cwd p)

/-- Embedding of `OrganizationEngine.HIERARCHY_TEMPLATES`
(`organization.py` lines 16-24). -/
def HIERARCHY_TEMPLATES : List (String × String) :=
  [("flat", ""),
   ("date", "{year}/{month}/{day}"),
   ("year_month", "{year}/{month}"),
   ("year", "{year}"),
   ("camera", "{camera}"),
   ("camera_date", "{camera}/{year}/{month}/{day}"),
   ("year_camera", "{year}/{camera}")]

/-- State of a constructed `OrganizationEngine`: the absolutized base
destination and the resolved hierarchy pattern. -/
structure OrganizationEngine where
  destination : String
  hierarchyPattern : String
deriving DecidableEq

/-- Embedding of `OrganizationEngine.__init__` (`organization.py` lines
26-48) with the process working directory as an explicit parameter:
`destination` is passed through `os.path.abspath`; a `None` or `"flat"`
hierarchy becomes the empty pattern, a known preset name expands through
the table, and anything else is kept as a raw pattern. -/
def OrganizationEngine.create (cwd destination : String)
    (hierarchy : Option String) : OrganizationEngine :=
  { destination := abspath cwd destination
    hierarchyPattern :=
      match hierarchy with
      | none => ""
      | some h =>
        if h = "flat" then ""
        else
          match lookupAttr HIERARCHY_TEMPLATES h with
          | some t => t
          | none => h }

/-- Loop body of `OrganizationEngine.determine_destination_path`
(`organization.py` lines 93-100): a placeholder present in the metadata
with a truthy (non-empty) value is substituted; a missing or empty-valued
placeholder is replaced by the literal `unknown`. -/
def substSegmentPlaceholder (metadata : List (String × String)) (sv : List Char)
    (ph : List Char) : List Char :=
  match lookupAttr metadata (String.mk ph) with
  | some v =>
    if v = "" then replaceAll sv ('{' :: (ph ++ ['}'])) "unknown".data
    else replaceAll sv ('{' :: (ph ++ ['}'])) v.data
  | none => replaceAll sv ('{' :: (ph ++ ['}'])) "unknown".data

/-- Embedding of `OrganizationEngine.determine_destination_path`
(`organization.py` lines 61-105): with an empty hierarchy pattern the base
destination is returned unchanged; otherwise the pattern is split on `/`,
empty segments are skipped, placeholders are substituted per segment, and
the segments are joined onto the base destination. -/
def determineDestinationPath (engine : OrganizationEngine)
    (metadata : List (String × String)) : String :=
  if engine.hierarchyPattern = "" then engine.destination
  else
    (splitOnChar '/' engine.hierarchyPattern.data).foldl (fun destPath segment =>
      if segment = [] then destPath
      else
        let segVal := (findPlaceholders segment).foldl
          (substSegmentPlaceholder metadata) segment
        joinPath destPath (String.mk segVal)) engine.destination

/-- Filesystem state: the existing regular files and the existing
directories.  `os.path.exists` consults both, `os.path.isfile` only the
files. -/
structure FS where
  files : List String
  dirs : List String
deriving DecidableEq

/-- Embedding of `os.path.exists` against the modelled state. -/
def pathExists (fs : FS) (p : String) : Bool :=
  fs.files.contains p || fs.dirs.contains p

/-- Embedding of `os.path.isfile` against the modelled state. -/
def isFile (fs : FS) (p : String) : Bool :=
  fs.files.contains p

/-- Embedding of `os.makedirs(name, exist_ok=True)`: create the missing
parents (recursing through `os.path.dirname`) and then the directory
itself.  The fuel bounds the parent chain; `ensureDirectoryExists` passes
the path length, which the chain of strictly shrinking parents cannot
exhaust. -/
def makedirs : Nat → FS → String → FS
  | 0, fs, name => { fs with dirs := name :: fs.dirs }
  | fuel + 1, fs, name =>
    let head := dirname name
    let tail := basename name
    let fs' :=
      if head ≠ "" ∧ tail ≠ "" ∧ ¬ (pathExists fs head) then makedirs fuel fs head
      else fs
    { fs' with dirs := name :: fs'.dirs }

/-- Embedding of `OrganizationEngine._ensure_directory_exists`
(`organization.py` lines 50-59). -/
def ensureDirectoryExists (fs : FS) (directory : String) : FS :=
  if pathExists fs directory then fs else makedirs directory.length fs directory

/-- Embedding of `shutil.move(src, dst)` for the reachable case (the
destination was just checked not to exist): the source path disappears and
the destination path appears. -/
def moveFile (fs : FS) (src dst : String) : FS :=
  { fs with files := dst :: fs.files.erase src }

/-- Embedding of `shutil.copy2(src, dst)` for the reachable case: the
destination path appears and the source stays. -/
def copyFile (fs : FS) (_src dst : String) : FS :=
  { fs with files := dst :: fs.files }

/-- Embedding of `OrganizationEngine.organize_file` (`organization.py`
lines 107-166): raise `FileNotFoundError` when the source is not a file;
otherwise compose the destination directory, the new filename and
collision resolution; in dry-run mode return the decision without touching
the state; otherwise create the destination directory if needed and move
or copy the file.  The error component carries the exception message. -/
def organizeFile (engine : OrganizationEngine) (fs : FS) (sourcePath : String)
    (metadata : List (String × String)) (newFilename : String)
    (dryRun mv : Bool) : Except String (String × String) × FS :=
  if ¬ (isFile fs sourcePath) then
    (.error ("Source file not found: " ++ sourcePath), fs)
  else
    let destDir := determineDestinationPath engine metadata
    let destPath := handleDuplicates (fs.files ++ fs.dirs) (joinPath destDir newFilename)
    if dryRun then (.ok (sourcePath, destPath), fs)
    else
      let fs1 := ensureDirectoryExists fs destDir
      let fs2 := if mv then moveFile fs1 sourcePath destPath
                 else copyFile fs1 sourcePath destPath
      (.ok (sourcePath, destPath), fs2)

/-- Loop of `OrganizationEngine.organize_files` (`organization.py` lines
185-196) over the zipped metadata/filename pairs.  The lookup of
`metadata['file_path']` happens outside the per-file `try`, so a missing
key aborts the whole batch (modelled by the error outcome, which discards
the collected results but keeps the state mutations made so far); any
exception from `organize_file` itself is caught and recorded as this
file's outcome `(source_path, str(e))`. -/
def organizeLoop (engine : OrganizationEngine) (dryRun mv : Bool) (fs : FS) :
    List (List (String × String) × String) → Except String (List (String × String)) × FS
  | [] => (.ok [], fs)
  | (metadata, newFilename) :: rest =>
    match lookupAttr metadata "file_path" with
    | none => (.error "KeyError: file_path", fs)
    | some sourcePath =>
      let step := organizeFile engine fs sourcePath metadata newFilename dryRun mv
      let entry : String × String :=
        match step.1 with
        | .ok pair => pair
        | .error e => (sourcePath, e)
      match organizeLoop engine dryRun mv step.2 rest with
      | (.ok results, fs'') => (.ok (entry :: results), fs'')
      | (.error e, fs'') => (.error e, fs'')

/-- Embedding of `OrganizationEngine.organize_files` (`organization.py`
lines 168-196): reject mismatched list lengths with `ValueError` before
touching any file, then process the zipped pairs in order. -/
def organizeFiles (engine : OrganizationEngine) (fs : FS)
    (filesMetadata : List (List (String × String))) (newFilenames : List String)
    (dryRun mv : Bool) : Except String (List (String × String)) × FS :=
  if filesMetadata.length ≠ newFilenames.length then
    (.error "Length of files_metadata and new_filenames must match", fs)
  else organizeLoop engine dryRun mv fs (filesMetadata.zip newFilenames)

deriving instance DecidableEq for Except

/-- No two adjacent underscores (the shape left by collapsing underscore
runs). -/
def noTwoUnderscores (l : List Char) : Prop :=
  List.Chain' (fun a b => ¬(a = '_' ∧ b = '_')) l

/-- Shape of every `_clean_filename` output: only valid characters, no
underscore run, and no underscore at either end. -/
def GoodClean (t : List Char) : Prop :=
  t.all (fun c => !(isInvalidChar c)) = true ∧ noTwoUnderscores t ∧
  t.head? ≠ some '_' ∧ t.getLast? ≠ some '_'

/-! Theorems about the embedded engine. -/

/-- C10: `organize_files` raises `ValueError` when `files_metadata` and
`new_filenames` have different lengths, and the length check precedes any
per-file processing, so the filesystem state is returned unchanged. -/
theorem organizeFiles_length_mismatch (engine : OrganizationEngine) (fs : FS)
    (mds : List (List (String × String))) (fns : List String) (dryRun mv : Bool)
    (h : mds.length ≠ fns.length) :
    organizeFiles engine fs mds fns dryRun mv =
      (.error "Length of files_metadata and new_filenames must match", fs) := by
  unfold organizeFiles
  rw [if_pos h]

/-- Witness for C10 at a concrete mismatched input. -/
theorem organizeFiles_length_mismatch_witness :
    ([[("file_path", "/s/a.jpg")]] : List (List (String × String))).length ≠
      ([] : List String).length ∧
    organizeFiles (OrganizationEngine.create "/cwd" "/dst" none) ⟨[], []⟩
      [[("file_path", "/s/a.jpg")]] [] false true =
      (.error "Length of files_metadata and new_filenames must match", ⟨[], []⟩) :=
  ⟨by decide, organizeFiles_length_mismatch _ _ _ _ _ _ (by decide)⟩

/-- C8: in dry-run mode `organize_file` leaves the filesystem state
untouched (its reads are only existence checks, which have no effect in
the state model), and for an existing source it returns the planned
`(source_path, destination_path)` decision. -/
theorem organizeFile_dryRun_pure (engine : OrganizationEngine) (fs : FS)
    (sourcePath : String) (metadata : List (String × String))
    (newFilename : String) (mv : Bool) :
    (organizeFile engine fs sourcePath metadata newFilename true mv).2 = fs ∧
    (isFile fs sourcePath = true →
      (organizeFile engine fs sourcePath metadata newFilename true mv).1 =
        .ok (sourcePath, handleDuplicates (fs.files ++ fs.dirs)
          (joinPath (determineDestinationPath engine metadata) newFilename))) := by
  constructor
  · by_cases h : isFile fs sourcePath = true <;> simp [organizeFile, h]
  · intro h
    simp [organizeFile, h]

/-- Witness for C8 at a concrete input. -/
theorem organizeFile_dryRun_pure_witness :
    isFile ⟨["/s/f1.jpg"], ["/dst"]⟩ "/s/f1.jpg" = true ∧
    (organizeFile (OrganizationEngine.create "/cwd" "/dst" none)
      ⟨["/s/f1.jpg"], ["/dst"]⟩ "/s/f1.jpg" [("file_path", "/s/f1.jpg")]
      "n1.jpg" true true).2 = ⟨["/s/f1.jpg"], ["/dst"]⟩ ∧
    (organizeFile (OrganizationEngine.create "/cwd" "/dst" none)
      ⟨["/s/f1.jpg"], ["/dst"]⟩ "/s/f1.jpg" [("file_path", "/s/f1.jpg")]
      "n1.jpg" true true).1 =
      .ok ("/s/f1.jpg", handleDuplicates (["/s/f1.jpg"] ++ ["/dst"])
        (joinPath (determineDestinationPath
          (OrganizationEngine.create "/cwd" "/dst" none) [("file_path", "/s/f1.jpg")])
          "n1.jpg")) :=
  ⟨by decide,
   (organizeFile_dryRun_pure _ _ _ _ _ _).1,
   (organizeFile_dryRun_pure _ _ _ _ _ _).2 (by decide)⟩

/-- C2: a placeholder whose attribute is absent, or whose value is empty
after string conversion, never raises: the filename substitution step
replaces its braced occurrences by the empty string, while the hierarchy
segment substitution step replaces them by the literal `unknown`.  Both
substitution steps are the exact loop bodies of `generate_filename` and
`determine_destination_path` respectively, and both are total. -/
theorem substPlaceholder_missing_policy (metadata : List (String × String))
    (p : List Char)
    (h : lookupAttr metadata (String.mk p) = none ∨
         lookupAttr metadata (String.mk p) = some "") :
    (∀ acc, substPlaceholder metadata acc p =
      replaceAll acc ('{' :: (p ++ ['}'])) []) ∧
    (∀ sv, substSegmentPlaceholder metadata sv p =
      replaceAll sv ('{' :: (p ++ ['}'])) "unknown".data) := by
  rcases h with h | h <;>
    exact ⟨fun acc => by simp [substPlaceholder, h],
           fun sv => by simp [substSegmentPlaceholder, h]⟩

/-- Witness for C2: the `month` placeholder is absent from the map. -/
theorem substPlaceholder_missing_policy_witness :
    lookupAttr [("year", "2023")] (String.mk "month".data) = none ∧
    substPlaceholder [("year", "2023")] "{month}".data "month".data =
      replaceAll "{month}".data ('{' :: ("month".data ++ ['}'])) [] ∧
    substSegmentPlaceholder [("year", "2023")] "{month}".data "month".data =
      replaceAll "{month}".data ('{' :: ("month".data ++ ['}'])) "unknown".data :=
  ⟨by decide,
   (substPlaceholder_missing_policy _ _ (Or.inl (by decide))).1 _,
   (substPlaceholder_missing_policy _ _ (Or.inl (by decide))).2 _⟩

/-- C6 (amended): with hierarchy `None`, `"flat"` or `""`, the destination
directory for every attribute map is the engine's stored base — which is
`os.path.abspath(destination)`, not the raw `destination` argument. -/
theorem determineDestinationPath_flat_abspath (cwd base : String)
    (hierarchy : Option String) (metadata : List (String × String))
    (h : hierarchy = none ∨ hierarchy = some "flat" ∨ hierarchy = some "") :
    determineDestinationPath (OrganizationEngine.create cwd base hierarchy) metadata =
      abspath cwd base := by
  rcases h with h | h | h <;> subst h <;>
    simp [determineDestinationPath, OrganizationEngine.create, HIERARCHY_TEMPLATES,
      lookupAttr]

/-- C6 counterexample: for the relative base `photos` (process working
directory `/base`), `resolve_directory(base, "flat", A)` is the
absolutized `/base/photos`, not the argument `photos` itself. -/
theorem determineDestinationPath_flat_not_base :
    determineDestinationPath (OrganizationEngine.create "/base" "photos" (some "flat"))
      [] = "/base/photos" ∧
    determineDestinationPath (OrganizationEngine.create "/base" "photos" (some "flat"))
      [] ≠ "photos" := by
  decide

/-- Witness for C6: for an already absolute, normalized base the stored
destination coincides with the argument. -/
theorem determineDestinationPath_flat_abspath_witness :
    (some "flat" = none ∨ some "flat" = some "flat" ∨ some "flat" = some "") ∧
    determineDestinationPath (OrganizationEngine.create "/cwd" "/dst" (some "flat"))
      [("year", "2023")] = abspath "/cwd" "/dst" ∧
    abspath "/cwd" "/dst" = "/dst" :=
  ⟨Or.inr (Or.inl rfl),
   determineDestinationPath_flat_abspath _ _ _ _ (Or.inr (Or.inl rfl)),
   by decide⟩

/-- Any string accepted by the validation regex (in the given mode) has
its brace counts determined: a full match from literal mode balances the
braces, while a match from inside a placeholder carries one pending
closing brace. -/
theorem matchRun_counts : ∀ (cs : List Char) (m : VMode), matchRun m cs = true →
    cs.count '}' = cs.count '{' + (if m = VMode.lit then 0 else 1) := by
  intro cs
  induction cs with
  | nil =>
    intro m h
    cases m <;> simp [matchRun] at h ⊢
  | cons c rest ih =>
    intro m h
    cases m with
    | lit =>
      by_cases h1 : c = '{'
      · subst h1
        simp only [matchRun, if_pos rfl] at h
        have := ih .phFirst h
        simp at this
        simp [List.count_cons, this]
      · by_cases h2 : c = '}'
        · subst h2
          simp [matchRun, h1] at h
        · simp only [matchRun, if_neg h1, if_neg h2] at h
          have := ih .lit h
          simp only [List.count_cons, beq_iff_eq]
          simp at this
          simp [h1, h2, this]
    | phFirst =>
      simp only [matchRun] at h
      by_cases hw : isWordChar c = true
      · rw [if_pos hw] at h
        have hne1 : c ≠ '{' := by
          intro hc; subst hc; simp [isWordChar] at hw
        have hne2 : c ≠ '}' := by
          intro hc; subst hc; simp [isWordChar] at hw
        have := ih .phRest h
        simp at this
        simp [List.count_cons, hne1, hne2, this]
      · rw [if_neg hw] at h
        exact absurd h (by simp)
    | phRest =>
      simp only [matchRun] at h
      by_cases h2 : c = '}'
      · subst h2
        rw [if_pos rfl] at h
        have := ih .lit h
        simp at this
        simp [List.count_cons, this]
      · rw [if_neg h2] at h
        by_cases hw : isWordChar c = true
        · rw [if_pos hw] at h
          have hne1 : c ≠ '{' := by
            intro hc; subst hc; simp [isWordChar] at hw
          have := ih .phRest h
          simp at this
          simp [List.count_cons, hne1, h2, this]
        · rw [if_neg hw] at h
          exact absurd h (by simp)

/-- C4 (amended): template construction succeeds exactly when the pattern
is non-empty and is a sequence of brace-free literals interleaved with
placeholders of the shape a brace-enclosed non-empty run of word
characters; the separate brace-count check is subsumed, because any
pattern of that shape has equal brace counts.  In particular the
validator rejects the claimed pair and also rejects a balanced pattern
such as one whose placeholder name holds a hyphen. -/
theorem validatePattern_characterization :
    (∀ p : String, validatePattern p = .ok () ↔
      (p ≠ "" ∧ matchRun .lit p.data = true)) ∧
    validatePattern "{a}_{b}" = .ok () ∧
    validatePattern "flat" = .ok () ∧
    validatePattern "{}" = .error "Naming pattern has invalid placeholder format" ∧
    validatePattern "{a{b}}" = .error "Naming pattern has invalid placeholder format" ∧
    validatePattern "{a-b}" = .error "Naming pattern has invalid placeholder format" := by
  refine ⟨?_, by decide, by decide, by decide, by decide, by decide⟩
  intro p
  constructor
  · intro h
    by_cases h0 : p = ""
    · simp [validatePattern, h0] at h
    · refine ⟨h0, ?_⟩
      unfold validatePattern at h
      rw [if_neg h0] at h
      by_cases h1 : countChar '{' p ≠ countChar '}' p
      · rw [if_pos h1] at h
        exact absurd h (by simp)
      · rw [if_neg h1] at h
        cases h2 : matchRun .lit p.data with
        | true => rfl
        | false => simp [h2] at h
  · rintro ⟨h0, h2⟩
    have hc : countChar '{' p = countChar '}' p := by
      have := matchRun_counts p.data .lit h2
      simp at this
      simp [countChar, this]
    unfold validatePattern
    rw [if_neg h0, if_neg (fun hne => hne hc)]
    simp [h2]

/-- C4 counterexample: the pattern holding the placeholder name with a
hyphen is non-empty, has balanced braces, and its one placeholder name is
non-empty and brace-free — yet validation rejects it, because the
validation regex additionally requires word characters. -/
theorem validatePattern_rejects_nonword_name :
    validatePattern "{a-b}" = .error "Naming pattern has invalid placeholder format" ∧
    "{a-b}" ≠ "" ∧
    countChar '{' "{a-b}" = countChar '}' "{a-b}" ∧
    findPlaceholders "{a-b}".data = ["a-b".data] ∧
    "a-b".data ≠ [] ∧ '{' ∉ "a-b".data ∧ '}' ∉ "a-b".data := by
  decide

/-- C5 counterexample: with template `{a}_{b}`, the value of `a` is the
`{name}`-shaped text naming the later placeholder `b`.  The claim says it
is inserted literally (so the result would keep a brace, since the cleaner
does not touch braces), but the sequential `str.replace` loop substitutes
it again: the result is `x_x` and holds no brace at all. -/
theorem generateFilename_double_substitution :
    generateFilename "{a}_{b}" [("a", "{b}"), ("b", "x")] = "x_x" ∧
    '{' ∉ (generateFilename "{a}_{b}" [("a", "{b}"), ("b", "x")]).data ∧
    cleanFilenameS "{b}_x" = "{b}_x" := by
  decide

/-- C5 (amended): substitution is iterated global find/replace in
placeholder order, so a substituted value that names a later-processed
placeholder is substituted again: with template `{a}_{b}`, the value
`{b}` for `a`, and any non-empty value v for `b`, the generated filename
is the cleaned form of `v_v` — the `b`-value appears twice and the text
`{b}` is gone. -/
theorem generateFilename_sequential_subst (vb : String) (h : vb ≠ "") :
    generateFilename "{a}_{b}" [("a", "{b}"), ("b", vb)] =
      String.mk (cleanFilename (vb.data ++ '_' :: vb.data)) := by
  have hfold : (findPlaceholders "{a}_{b}".data).foldl
      (substPlaceholder [("a", "{b}"), ("b", vb)]) "{a}_{b}".data =
      substPlaceholder [("a", "{b}"), ("b", vb)]
        (substPlaceholder [("a", "{b}"), ("b", vb)] "{a}_{b}".data ['a']) ['b'] := rfl
  have h2 : substPlaceholder [("a", "{b}"), ("b", vb)] "{a}_{b}".data ['a'] =
      "{b}_{b}".data := rfl
  have haux : ∀ r : List Char,
      replaceAll "{b}_{b}".data ('{' :: (['b'] ++ ['}'])) r = r ++ '_' :: (r ++ []) :=
    fun r => rfl
  have h3' : substPlaceholder [("a", "{b}"), ("b", vb)] "{b}_{b}".data ['b'] =
      replaceAll "{b}_{b}".data ('{' :: (['b'] ++ ['}']))
        (if vb = "" then ("" : String) else vb).data := rfl
  have h3 : substPlaceholder [("a", "{b}"), ("b", vb)] "{b}_{b}".data ['b'] =
      vb.data ++ '_' :: vb.data := by
    rw [h3', if_neg h, haux]
    simp
  have h4 : lookupAttr [("a", "{b}"), ("b", vb)] "extension" = none := rfl
  simp only [generateFilename, hfold, h2, h3, h4]

/-- Witness for C5 at the concrete value `x`. -/
theorem generateFilename_sequential_subst_witness :
    ("x" : String) ≠ "" ∧
    generateFilename "{a}_{b}" [("a", "{b}"), ("b", "x")] =
      String.mk (cleanFilename ("x".data ++ '_' :: "x".data)) :=
  ⟨by decide, generateFilename_sequential_subst "x" (by decide)⟩

theorem replaceInvalid_all_valid (cs : List Char) :
    (replaceInvalid cs).all (fun c => !(isInvalidChar c)) = true := by
  rw [List.all_eq_true]
  intro x hx
  simp only [replaceInvalid, List.mem_map] at hx
  obtain ⟨c, _, rfl⟩ := hx
  by_cases h : isInvalidChar c = true
  · simp only [if_pos h]
    decide
  · simp only [if_neg h]
    simp only [Bool.not_eq_true] at h
    simp [h]

theorem collapseAux_all (P : Char → Bool) (hP : P '_' = true) :
    ∀ (cs : List Char) (b : Bool), cs.all P = true → (collapseAux b cs).all P = true := by
  intro cs
  induction cs with
  | nil => intro b _; simp [collapseAux]
  | cons c rest ih =>
    intro b hall
    have hall' : P c = true ∧ rest.all P = true := by simpa using hall
    by_cases hc : c = '_'
    · subst hc
      cases b with
      | true =>
        show (collapseAux true rest).all P = true
        exact ih true hall'.2
      | false =>
        show ('_' :: collapseAux true rest).all P = true
        simpa [hP] using ih true hall'.2
    · have he : collapseAux b (c :: rest) = c :: collapseAux false rest := by
        cases b <;> · show (if c = '_' then _ else c :: collapseAux false rest) = _
                      rw [if_neg hc]
      rw [he]
      simpa [hall'.1] using ih false hall'.2

theorem collapseAux_true_head : ∀ cs : List Char, (collapseAux true cs).head? ≠ some '_' := by
  intro cs
  induction cs with
  | nil => simp [collapseAux]
  | cons c rest ih =>
    by_cases hc : c = '_'
    · subst hc
      exact ih
    · have he : collapseAux true (c :: rest) = c :: collapseAux false rest := by
        show (if c = '_' then _ else c :: collapseAux false rest) = _
        rw [if_neg hc]
      rw [he]
      simpa using hc

theorem collapseAux_noAdj : ∀ (cs : List Char) (b : Bool),
    noTwoUnderscores (collapseAux b cs) := by
  intro cs
  induction cs with
  | nil => intro b; simp [collapseAux, noTwoUnderscores]
  | cons c rest ih =>
    intro b
    by_cases hc : c = '_'
    · subst hc
      cases b with
      | true => exact ih true
      | false =>
        show noTwoUnderscores ('_' :: collapseAux true rest)
        rw [noTwoUnderscores, List.chain'_cons']
        refine ⟨?_, ih true⟩
        intro y hy hcontra
        exact collapseAux_true_head rest (hcontra.2 ▸ hy)
    · have he : collapseAux b (c :: rest) = c :: collapseAux false rest := by
        cases b <;> · show (if c = '_' then _ else c :: collapseAux false rest) = _
                      rw [if_neg hc]
      rw [he, noTwoUnderscores, List.chain'_cons']
      refine ⟨?_, ih false⟩
      intro y _ hcontra
      exact hc hcontra.1

theorem collapseAux_id : ∀ (cs : List Char) (b : Bool), noTwoUnderscores cs →
    (b = true → cs.head? ≠ some '_') → collapseAux b cs = cs := by
  intro cs
  induction cs with
  | nil => intro b _ _; cases b <;> rfl
  | cons c rest ih =>
    intro b hch hb
    rw [noTwoUnderscores, List.chain'_cons'] at hch
    by_cases hc : c = '_'
    · subst hc
      cases b with
      | true => exact absurd rfl (hb rfl)
      | false =>
        show '_' :: collapseAux true rest = '_' :: rest
        congr 1
        refine ih true hch.2 (fun _ hhd => ?_)
        exact hch.1 '_' hhd ⟨rfl, rfl⟩
    · have he : collapseAux b (c :: rest) = c :: collapseAux false rest := by
        cases b <;> · show (if c = '_' then _ else c :: collapseAux false rest) = _
                      rw [if_neg hc]
      rw [he]
      congr 1
      exact ih false hch.2 (by simp)

theorem replaceInvalid_id (cs : List Char)
    (h : cs.all (fun c => !(isInvalidChar c)) = true) : replaceInvalid cs = cs := by
  induction cs with
  | nil => rfl
  | cons c rest ih =>
    have h' : (!(isInvalidChar c)) = true ∧ rest.all (fun c => !(isInvalidChar c)) = true := by
      simpa using h
    have hc0 : isInvalidChar c = false := by simpa using h'.1
    have hc : ¬ (isInvalidChar c = true) := by simp [hc0]
    show (if isInvalidChar c = true then '_' else c) :: replaceInvalid rest = c :: rest
    rw [if_neg hc, ih h'.2]



theorem head?_dropWhile_ne {α : Type} (p : α → Bool) (l : List α) :
    ∀ a, (l.dropWhile p).head? = some a → p a = false := by
  induction l with
  | nil => simp
  | cons x xs ih =>
    intro a ha
    rw [List.dropWhile_cons] at ha
    by_cases hx : p x = true
    · rw [if_pos hx] at ha
      exact ih a ha
    · rw [if_neg hx] at ha
      have hax : x = a := by simpa using ha
      subst hax
      simpa using hx

theorem stripUnderscores_all (P : Char → Bool) (cs : List Char) (h : cs.all P = true) :
    (stripUnderscores cs).all P = true := by
  have hs : List.dropWhile (fun c => c = '_') cs <:+ cs := List.dropWhile_suffix _
  have hp : List.rdropWhile (fun c => c = '_') (List.dropWhile (fun c => c = '_') cs) <+:
      List.dropWhile (fun c => c = '_') cs := List.rdropWhile_prefix _ _
  obtain ⟨t, ht⟩ := hs
  obtain ⟨u, hu⟩ := hp
  rw [List.all_eq_true] at h ⊢
  intro x hx
  apply h
  rw [← ht, ← hu]
  simp only [stripUnderscores] at hx
  simp [hx]

theorem stripUnderscores_noAdj (cs : List Char) (h : noTwoUnderscores cs) :
    noTwoUnderscores (stripUnderscores cs) := by
  have hs : List.dropWhile (fun c => c = '_') cs <:+ cs := List.dropWhile_suffix _
  have hp : List.rdropWhile (fun c => c = '_') (List.dropWhile (fun c => c = '_') cs) <+:
      List.dropWhile (fun c => c = '_') cs := List.rdropWhile_prefix _ _
  have h1 : noTwoUnderscores (List.dropWhile (fun c => c = '_') cs) := h.suffix hs
  exact h1.prefix hp

theorem stripUnderscores_head (cs : List Char) :
    (stripUnderscores cs).head? ≠ some '_' := by
  intro hcontra
  have hp : List.rdropWhile (fun c => c = '_') (List.dropWhile (fun c => c = '_') cs) <+:
      List.dropWhile (fun c => c = '_') cs := List.rdropWhile_prefix _ _
  obtain ⟨u, hu⟩ := hp
  simp only [stripUnderscores] at hcontra
  cases hsplit : List.rdropWhile (fun c => c = '_')
      (List.dropWhile (fun c => c = '_') cs) with
  | nil => rw [hsplit] at hcontra; simp at hcontra
  | cons a r =>
    rw [hsplit] at hcontra
    have ha : a = '_' := by simpa using hcontra
    rw [hsplit] at hu
    have hm : (List.dropWhile (fun c => c = '_') cs).head? = some a := by
      rw [← hu]
      simp
    have := head?_dropWhile_ne (fun c => decide (c = '_')) cs a hm
    rw [ha] at this
    simp at this

theorem stripUnderscores_last (cs : List Char) :
    (stripUnderscores cs).getLast? ≠ some '_' := by
  intro hcontra
  simp only [stripUnderscores, List.rdropWhile] at hcontra
  rw [List.getLast?_reverse] at hcontra
  have := head?_dropWhile_ne (fun c => decide (c = '_'))
    (List.dropWhile (fun c => c = '_') cs).reverse '_' hcontra
  simp at this

theorem cleanFilename_good (cs : List Char) : GoodClean (cleanFilename cs) := by
  show GoodClean (if stripUnderscores (collapseUnderscores (replaceInvalid cs)) = []
    then "unnamed_file".data else stripUnderscores (collapseUnderscores (replaceInvalid cs)))
  by_cases hr : stripUnderscores (collapseUnderscores (replaceInvalid cs)) = []
  · rw [if_pos hr]
    refine ⟨by decide, ?_, by decide, by decide⟩
    have hdata : "unnamed_file".data = ['u', 'n', 'n', 'a', 'm', 'e', 'd', '_', 'f', 'i', 'l', 'e'] := rfl
    rw [noTwoUnderscores, hdata]
    simp [List.chain'_cons]
  · rw [if_neg hr]
    refine ⟨?_, ?_, ?_, ?_⟩
    · exact stripUnderscores_all _ _
        (collapseAux_all _ (by decide) _ false (replaceInvalid_all_valid cs))
    · exact stripUnderscores_noAdj _ (collapseAux_noAdj _ false)
    · exact stripUnderscores_head _
    · exact stripUnderscores_last _

theorem cleanFilename_ne_nil (cs : List Char) : cleanFilename cs ≠ [] := by
  show (if stripUnderscores (collapseUnderscores (replaceInvalid cs)) = []
    then "unnamed_file".data else stripUnderscores (collapseUnderscores (replaceInvalid cs))) ≠ []
  by_cases hr : stripUnderscores (collapseUnderscores (replaceInvalid cs)) = []
  · rw [if_pos hr]
    decide
  · rw [if_neg hr]
    exact hr

theorem cleanFilename_id_of_good (t : List Char) (hg : GoodClean t) (hne : t ≠ []) :
    cleanFilename t = t := by
  obtain ⟨h1, h2, h3, h4⟩ := hg
  have e1 : replaceInvalid t = t := replaceInvalid_id t h1
  have e2 : collapseUnderscores t = t := collapseAux_id t false h2 (by simp)
  have e3l : List.dropWhile (fun c => c = '_') t = t := by
    cases t with
    | nil => rfl
    | cons a r =>
      have ha : ¬ (a = '_') := by
        intro ha
        exact h3 (by simp [ha])
      rw [List.dropWhile_cons, if_neg (by simpa using ha)]
  have e3r : List.rdropWhile (fun c => c = '_') t = t := by
    rw [List.rdropWhile_eq_self_iff]
    intro hl hlast
    apply h4
    rw [List.getLast?_eq_getLast_of_ne_nil hl]
    simpa using hlast
  show (if stripUnderscores (collapseUnderscores (replaceInvalid t)) = []
    then "unnamed_file".data else stripUnderscores (collapseUnderscores (replaceInvalid t))) = t
  rw [e1, e2]
  have e3 : stripUnderscores t = t := by
    rw [stripUnderscores, e3l, e3r]
  rw [e3, if_neg hne]

/-- C9: sanitization is idempotent: applying `_clean_filename` to an
already-cleaned name returns it unchanged. -/
theorem cleanFilename_idempotent (s : String) :
    cleanFilenameS (cleanFilenameS s) = cleanFilenameS s := by
  show String.mk (cleanFilename (cleanFilename s.data)) = String.mk (cleanFilename s.data)
  exact congrArg String.mk
    (cleanFilename_id_of_good _ (cleanFilename_good _) (cleanFilename_ne_nil _))



/-- C1 counterexample: the `extension` value is appended verbatim after
sanitization, so an extension holding a slash puts a path separator into
the generated filename even for a valid template. -/
theorem generateFilename_extension_unsanitized :
    validatePattern "{a}" = .ok () ∧
    generateFilename "{a}" [("a", "x"), ("extension", "j/pg")] = "x.j/pg" ∧
    '/' ∈ (generateFilename "{a}" [("a", "x"), ("extension", "j/pg")]).data := by
  refine ⟨by decide, by decide, by decide⟩

/-- C1 (amended): for every valid template and attribute map whose
`extension` value (when present) holds none of the reserved characters,
the generated filename holds none of the reserved characters
`< > : " / \\ | ? *` (hence no path separator); the sanitized portion
before the appended extension is always clean. -/
theorem generateFilename_no_reserved (pattern : String)
    (metadata : List (String × String))
    (_hvalid : validatePattern pattern = .ok ())
    (hext : ∀ v, lookupAttr metadata "extension" = some v →
      v.data.all (fun c => !(isInvalidChar c)) = true) :
    (generateFilename pattern metadata).data.all (fun c => !(isInvalidChar c)) = true := by
  unfold generateFilename
  cases hlk : lookupAttr metadata "extension" with
  | none =>
    exact (cleanFilename_good _).1
  | some v =>
    show ((if v = "" then
        String.mk (cleanFilename (List.foldl (substPlaceholder metadata) pattern.data
          (findPlaceholders pattern.data)))
      else
        String.mk (cleanFilename (List.foldl (substPlaceholder metadata) pattern.data
          (findPlaceholders pattern.data)) ++ '.' :: v.data)).data.all
      (fun c => !(isInvalidChar c))) = true
    by_cases hv : v = ""
    · rw [if_pos hv]
      exact (cleanFilename_good _).1
    · rw [if_neg hv]
      show (cleanFilename _ ++ '.' :: v.data).all _ = true
      rw [List.all_append, Bool.and_eq_true]
      refine ⟨(cleanFilename_good _).1, ?_⟩
      have hx := hext v hlk
      simp at hx
      exact List.all_eq_true.mpr (by
        intro x hxm
        rcases List.mem_cons.mp hxm with h | h
        · subst h; decide
        · simpa using hx x h)


/-- Witness for C1 at a concrete input with a clean extension. -/
theorem generateFilename_no_reserved_witness :
    validatePattern "{a}" = .ok () ∧
    (generateFilename "{a}" [("a", "he/llo"), ("extension", "jpg")]).data.all
      (fun c => !(isInvalidChar c)) = true :=
  ⟨by decide,
   generateFilename_no_reserved "{a}" [("a", "he/llo"), ("extension", "jpg")]
     (by decide)
     (fun v hv => by
       simp [lookupAttr] at hv
       subst hv
       decide)⟩

theorem natToCharsAux_stable : ∀ (n f₁ f₂ : Nat), n ≤ f₁ → n ≤ f₂ →
    natToCharsAux f₁ n = natToCharsAux f₂ n := by
  intro n
  induction n using Nat.strong_induction_on with
  | _ n ih =>
    intro f₁ f₂ h₁ h₂
    match f₁, f₂ with
    | 0, 0 => rfl
    | 0, g + 1 =>
      have hn : n = 0 := by omega
      subst hn
      rfl
    | g + 1, 0 =>
      have hn : n = 0 := by omega
      subst hn
      rfl
    | g + 1, h + 1 =>
      by_cases hn : n < 10
      · simp [natToCharsAux, hn]
      · simp only [natToCharsAux, if_neg hn]
        have hd : n / 10 < n := Nat.div_lt_self (by omega) (by omega)
        congr 1
        exact ih (n / 10) hd g h (by omega) (by omega)

theorem natToChars_eq (n : Nat) : natToChars n =
    if n < 10 then [Nat.digitChar n]
    else natToChars (n / 10) ++ [Nat.digitChar (n % 10)] := by
  cases n with
  | zero => rfl
  | succ m =>
    show natToCharsAux (m + 1) (m + 1) = _
    by_cases hn : m + 1 < 10
    · simp [natToCharsAux, hn]
    · simp only [natToCharsAux, if_neg hn]
      have hd : (m + 1) / 10 < m + 1 := Nat.div_lt_self (by omega) (by omega)
      congr 1
      exact natToCharsAux_stable ((m + 1) / 10) m ((m + 1) / 10) (by omega) (by omega)

theorem natToChars_ne_nil (n : Nat) : natToChars n ≠ [] := by
  rw [natToChars_eq]
  split <;> simp

theorem natToChars_injective : ∀ m n : Nat, natToChars m = natToChars n → m = n := by
  intro m
  induction m using Nat.strong_induction_on with
  | _ m ih =>
    intro n h
    rw [natToChars_eq m, natToChars_eq n] at h
    have hd : ∀ a < 10, ∀ b < 10, Nat.digitChar a = Nat.digitChar b → a = b := by
      decide
    by_cases hm : m < 10 <;> by_cases hn : n < 10
    · rw [if_pos hm, if_pos hn] at h
      exact hd m hm n hn (by simpa using h)
    · rw [if_pos hm, if_neg hn] at h
      exfalso
      cases hc : natToChars (n / 10) with
      | nil => exact natToChars_ne_nil (n / 10) hc
      | cons x xs =>
        rw [hc] at h
        simp at h
    · rw [if_neg hm, if_pos hn] at h
      exfalso
      cases hc : natToChars (m / 10) with
      | nil => exact natToChars_ne_nil (m / 10) hc
      | cons x xs =>
        rw [hc] at h
        simp at h
    · rw [if_neg hm, if_neg hn] at h
      have h' := congrArg List.reverse h
      simp only [List.reverse_append, List.reverse_cons, List.reverse_nil,
        List.nil_append, List.singleton_append] at h'
      obtain ⟨hdg, hrev⟩ := List.cons.inj h'
      have h1 : natToChars (m / 10) = natToChars (n / 10) := by
        have := congrArg List.reverse hrev
        simpa using this
      have hdm : m / 10 < m := Nat.div_lt_self (by omega) (by omega)
      have hdiv : m / 10 = n / 10 := ih (m / 10) hdm _ h1
      have hmod : m % 10 = n % 10 :=
        hd _ (Nat.mod_lt _ (by omega)) _ (Nat.mod_lt _ (by omega)) hdg
      omega

theorem splitAtLast_none {ch : Char} : ∀ cs, splitAtLast ch cs = none → ch ∉ cs := by
  intro cs
  induction cs with
  | nil => simp
  | cons c rest ih =>
    intro h
    simp only [splitAtLast] at h
    cases hs : splitAtLast ch rest with
    | some p =>
      rw [hs] at h
      obtain ⟨b, a⟩ := p
      simp at h
    | none =>
      rw [hs] at h
      by_cases hc : c = ch
      · rw [if_pos hc] at h
        simp at h
      · intro hmem
        rcases List.mem_cons.mp hmem with h' | h'
        · exact hc h'.symm
        · exact ih hs h'

theorem splitAtLast_spec {ch : Char} : ∀ cs b a, splitAtLast ch cs = some (b, a) →
    cs = b ++ ch :: a ∧ ch ∉ a := by
  intro cs
  induction cs with
  | nil => simp [splitAtLast]
  | cons c rest ih =>
    intro b a h
    simp only [splitAtLast] at h
    cases hs : splitAtLast ch rest with
    | some p =>
      obtain ⟨b', a'⟩ := p
      rw [hs] at h
      simp only [Option.some.injEq, Prod.mk.injEq] at h
      obtain ⟨rfl, rfl⟩ := h
      obtain ⟨hcs, hni⟩ := ih b' a' hs
      exact ⟨by rw [hcs]; rfl, hni⟩
    | none =>
      rw [hs] at h
      by_cases hc : c = ch
      · rw [if_pos hc] at h
        simp only [Option.some.injEq, Prod.mk.injEq] at h
        obtain ⟨rfl, rfl⟩ := h
        subst hc
        exact ⟨rfl, splitAtLast_none rest hs⟩
      · rw [if_neg hc] at h
        simp at h

theorem basename_no_slash (p : String) : '/' ∉ (basename p).data := by
  unfold basename
  cases hs : splitAtLast '/' p.data with
  | none => exact splitAtLast_none _ hs
  | some q =>
    obtain ⟨b, a⟩ := q
    exact (splitAtLast_spec _ _ _ hs).2

theorem splitext_fst_no_slash (q : String) (hq : '/' ∉ q.data) :
    '/' ∉ (splitext q).1.data := by
  unfold splitext
  cases hs : splitAtLast '.' q.data with
  | none => exact hq
  | some p =>
    obtain ⟨b, a⟩ := p
    show '/' ∉ (if (b.all fun x => decide (x = '.')) = true then (q, "")
      else (String.mk b, String.mk ('.' :: a))).1.data
    by_cases hb : (b.all fun x => decide (x = '.')) = true
    · rw [if_pos hb]
      exact hq
    · rw [if_neg hb]
      intro hmem
      apply hq
      rw [(splitAtLast_spec _ _ _ hs).1]
      exact List.mem_append_left _ hmem

theorem numberedName_head (name : String) (c : Nat) (ext : String)
    (hn : '/' ∉ name.data) : (numberedName name c ext).data.head? ≠ some '/' := by
  show (name.data ++ '_' :: (natToChars c ++ ext.data)).head? ≠ some '/'
  cases hd : name.data with
  | nil => simp
  | cons a r =>
    simp only [List.cons_append, List.head?_cons]
    intro hcontra
    apply hn
    rw [hd]
    simp at hcontra
    rw [hcontra]
    exact List.mem_cons_self _ _

theorem numberedName_inj (name ext : String) (c₁ c₂ : Nat)
    (h : numberedName name c₁ ext = numberedName name c₂ ext) : c₁ = c₂ := by
  have hdata : name.data ++ '_' :: (natToChars c₁ ++ ext.data) =
      name.data ++ '_' :: (natToChars c₂ ++ ext.data) := congrArg String.data h
  have h1 := List.append_cancel_left hdata
  injection h1 with _ h2
  exact natToChars_injective _ _ (List.append_cancel_right h2)

theorem joinPath_inj_right (d b₁ b₂ : String)
    (h₁ : b₁.data.head? ≠ some '/') (h₂ : b₂.data.head? ≠ some '/')
    (h : joinPath d b₁ = joinPath d b₂) : b₁ = b₂ := by
  unfold joinPath at h
  rw [if_neg h₁, if_neg h₂] at h
  by_cases hd : d = "" ∨ d.data.getLast? = some '/'
  · rw [if_pos hd, if_pos hd] at h
    have hx : d.data ++ b₁.data = d.data ++ b₂.data := by
      have := congrArg String.data h
      simpa [String.data_append] using this
    have h2 := List.append_cancel_left hx
    cases b₁
    cases b₂
    exact congrArg String.mk h2
  · rw [if_neg hd, if_neg hd] at h
    have hx : d.data ++ ('/' :: b₁.data) = d.data ++ ('/' :: b₂.data) := by
      have := congrArg String.data h
      simpa [String.data_append, List.append_assoc] using this
    have h1 := List.append_cancel_left hx
    injection h1 with _ h2
    cases b₁
    cases b₂
    exact congrArg String.mk h2

theorem probeAt_inj (d n e : String) (hn : '/' ∉ n.data) (c₁ c₂ : Nat)
    (h : probeAt d n e c₁ = probeAt d n e c₂) : c₁ = c₂ :=
  numberedName_inj n e c₁ c₂
    (joinPath_inj_right d _ _ (numberedName_head n c₁ e hn) (numberedName_head n c₂ e hn) h)

theorem exists_free_probe (existing : List String) (d n e : String)
    (hn : '/' ∉ n.data) (c₀ : Nat) :
    ∃ k, k < existing.length + 1 ∧ probeAt d n e (c₀ + k) ∉ existing := by
  by_contra hcon
  push_neg at hcon
  have hinj : Function.Injective (fun k : Nat => probeAt d n e (c₀ + k)) := by
    intro x y hxy
    have := probeAt_inj d n e hn _ _ hxy
    omega
  have hnodup :
      ((List.range (existing.length + 1)).map (fun k => probeAt d n e (c₀ + k))).Nodup :=
    (List.nodup_range _).map hinj
  have hsub :
      ((List.range (existing.length + 1)).map fun k => probeAt d n e (c₀ + k)) ⊆ existing := by
    intro x hx
    simp only [List.mem_map, List.mem_range] at hx
    obtain ⟨k, hk, rfl⟩ := hx
    exact hcon k hk
  have hle := (hnodup.subperm hsub).length_le
  simp at hle

theorem handleDuplicatesAux_first_free (existing : List String) (d n e : String) :
    ∀ (fuel c₀ : Nat), (∃ k, k < fuel ∧ probeAt d n e (c₀ + k) ∉ existing) →
    ∃ k, k < fuel ∧ handleDuplicatesAux existing d n e c₀ fuel = probeAt d n e (c₀ + k) ∧
      probeAt d n e (c₀ + k) ∉ existing ∧
      ∀ j, j < k → probeAt d n e (c₀ + j) ∈ existing := by
  intro fuel
  induction fuel with
  | zero =>
    intro c₀ ⟨k, hk, _⟩
    omega
  | succ fuel ih =>
    intro c₀ ⟨k, hk, hfree⟩
    by_cases hmem : probeAt d n e c₀ ∈ existing
    · have hk0 : k ≠ 0 := by
        intro h0
        subst h0
        exact hfree hmem
      obtain ⟨k', rfl⟩ : ∃ k', k = k' + 1 := ⟨k - 1, by omega⟩
      have hfree' : probeAt d n e ((c₀ + 1) + k') ∉ existing := by
        have harith : (c₀ + 1) + k' = c₀ + (k' + 1) := by omega
        rw [harith]
        exact hfree
      obtain ⟨k₂, hk₂, heq, hfree₂, hall₂⟩ := ih (c₀ + 1) ⟨k', by omega, hfree'⟩
      refine ⟨k₂ + 1, by omega, ?_, ?_, ?_⟩
      · have hstep : handleDuplicatesAux existing d n e c₀ (fuel + 1) =
            handleDuplicatesAux existing d n e (c₀ + 1) fuel := by
          show (if probeAt d n e c₀ ∈ existing then _ else _) = _
          rw [if_pos hmem]
        rw [hstep, heq]
        congr 1
        omega
      · have harith : c₀ + (k₂ + 1) = (c₀ + 1) + k₂ := by omega
        rw [harith]
        exact hfree₂
      · intro j hj
        cases j with
        | zero => simpa using hmem
        | succ j' =>
          have harith : c₀ + (j' + 1) = (c₀ + 1) + j' := by omega
          rw [harith]
          exact hall₂ j' (by omega)
    · refine ⟨0, by omega, ?_, by simpa using hmem, by intro j hj; omega⟩
      show (if probeAt d n e c₀ ∈ existing then _ else _) = probeAt d n e (c₀ + 0)
      rw [if_neg hmem]
      rfl

/-- C3: `handle_duplicates` returns the path unchanged when it does not
exist; otherwise it splits it into directory, stem and extension and
returns the first probed `stem_c.ext` (counter starting at 1) that does
not exist, all earlier probes existing. -/
theorem handleDuplicates_first_fit (existing : List String) (filepath : String) :
    (filepath ∉ existing → handleDuplicates existing filepath = filepath) ∧
    (filepath ∈ existing →
      ∃ c, 1 ≤ c ∧
        handleDuplicates existing filepath =
          probeAt (dirname filepath) (splitext (basename filepath)).1
            (splitext (basename filepath)).2 c ∧
        probeAt (dirname filepath) (splitext (basename filepath)).1
          (splitext (basename filepath)).2 c ∉ existing ∧
        ∀ j, 1 ≤ j → j < c →
          probeAt (dirname filepath) (splitext (basename filepath)).1
            (splitext (basename filepath)).2 j ∈ existing) := by
  constructor
  · intro h
    unfold handleDuplicates
    rw [if_neg h]
  · intro h
    have hn : '/' ∉ (splitext (basename filepath)).1.data :=
      splitext_fst_no_slash _ (basename_no_slash _)
    obtain ⟨k, hk, hfree⟩ := exists_free_probe existing _ _ _ hn 1
    obtain ⟨k', hk', heq, hfree', hall⟩ :=
      handleDuplicatesAux_first_free existing _ _ _ (existing.length + 1) 1
        ⟨k, hk, hfree⟩
    refine ⟨1 + k', by omega, ?_, hfree', ?_⟩
    · unfold handleDuplicates
      rw [if_pos h]
      exact heq
    · intro j h1 hj
      have harith : j = 1 + (j - 1) := by omega
      rw [harith]
      exact hall (j - 1) (by omega)

/-- Witness for C3: the spec's own example (both `a.jpg` and `a_1.jpg`
exist, so `a.jpg` resolves to `a_2.jpg`), plus the unchanged case. -/
theorem handleDuplicates_first_fit_witness :
    ("/d/a.jpg" ∈ ["/d/a.jpg", "/d/a_1.jpg"]) ∧
    handleDuplicates ["/d/a.jpg", "/d/a_1.jpg"] "/d/a.jpg" = "/d/a_2.jpg" ∧
    ("/d/b.jpg" ∉ ["/d/a.jpg", "/d/a_1.jpg"]) ∧
    handleDuplicates ["/d/a.jpg", "/d/a_1.jpg"] "/d/b.jpg" = "/d/b.jpg" ∧
    (∃ c, 1 ≤ c ∧
      handleDuplicates ["/d/a.jpg", "/d/a_1.jpg"] "/d/a.jpg" =
        probeAt (dirname "/d/a.jpg") (splitext (basename "/d/a.jpg")).1
          (splitext (basename "/d/a.jpg")).2 c ∧
      probeAt (dirname "/d/a.jpg") (splitext (basename "/d/a.jpg")).1
        (splitext (basename "/d/a.jpg")).2 c ∉ ["/d/a.jpg", "/d/a_1.jpg"] ∧
      ∀ j, 1 ≤ j → j < c →
        probeAt (dirname "/d/a.jpg") (splitext (basename "/d/a.jpg")).1
          (splitext (basename "/d/a.jpg")).2 j ∈ ["/d/a.jpg", "/d/a_1.jpg"]) :=
  ⟨by decide, by decide, by decide,
   (handleDuplicates_first_fit ["/d/a.jpg", "/d/a_1.jpg"] "/d/b.jpg").1 (by decide),
   (handleDuplicates_first_fit ["/d/a.jpg", "/d/a_1.jpg"] "/d/a.jpg").2 (by decide)⟩

theorem organizeFile_missing (engine : OrganizationEngine) (fs : FS) (sp : String)
    (md : List (String × String)) (fn : String) (dryRun mv : Bool)
    (h : isFile fs sp = false) :
    organizeFile engine fs sp md fn dryRun mv =
      (.error ("Source file not found: " ++ sp), fs) := by
  unfold organizeFile
  rw [if_pos (by simp [h])]

theorem organizeLoop_cons_none (engine : OrganizationEngine) (dryRun mv : Bool)
    (fs : FS) (md : List (String × String)) (fn : String)
    (rest : List (List (String × String) × String))
    (h : lookupAttr md "file_path" = none) :
    organizeLoop engine dryRun mv fs ((md, fn) :: rest) =
      (.error "KeyError: file_path", fs) := by
  simp only [organizeLoop, h]

theorem organizeLoop_cons_some (engine : OrganizationEngine) (dryRun mv : Bool)
    (fs : FS) (md : List (String × String)) (fn : String)
    (rest : List (List (String × String) × String)) (sp : String)
    (h : lookupAttr md "file_path" = some sp) :
    organizeLoop engine dryRun mv fs ((md, fn) :: rest) =
      (match organizeLoop engine dryRun mv
          (organizeFile engine fs sp md fn dryRun mv).2 rest with
       | (.ok results, fs'') =>
         (.ok ((match (organizeFile engine fs sp md fn dryRun mv).1 with
             | .ok pair => pair
             | .error e => (sp, e)) :: results), fs'')
       | (.error e, fs'') => (.error e, fs'')) := by
  simp only [organizeLoop, h]

theorem organizeLoop_append (engine : OrganizationEngine) (dryRun mv : Bool) :
    ∀ (l₁ l₂ : List (List (String × String) × String)) (fs : FS)
      (r₁ : List (String × String)) (fs₁ : FS),
    organizeLoop engine dryRun mv fs l₁ = (.ok r₁, fs₁) →
    organizeLoop engine dryRun mv fs (l₁ ++ l₂) =
      ((organizeLoop engine dryRun mv fs₁ l₂).1.map (r₁ ++ ·),
       (organizeLoop engine dryRun mv fs₁ l₂).2) := by
  intro l₁
  induction l₁ with
  | nil =>
    intro l₂ fs r₁ fs₁ h
    simp only [organizeLoop] at h
    have hr1 : r₁ = [] := by
      have := congrArg Prod.fst h
      simpa using this.symm
    have hr2 : fs = fs₁ := congrArg Prod.snd h
    subst hr1
    subst hr2
    rw [List.nil_append]
    cases hL : organizeLoop engine dryRun mv fs l₂ with
    | mk e s => cases e <;> simp [Except.map]
  | cons hd rest ih =>
    intro l₂ fs r₁ fs₁ h
    obtain ⟨md, fn⟩ := hd
    cases hlk : lookupAttr md "file_path" with
    | none =>
      rw [organizeLoop_cons_none _ _ _ _ _ _ _ hlk] at h
      exact absurd (congrArg Prod.fst h) (by simp)
    | some sp =>
      rw [organizeLoop_cons_some _ _ _ _ _ _ _ _ hlk] at h
      rw [List.cons_append, organizeLoop_cons_some _ _ _ _ _ _ _ _ hlk]
      cases hrec : organizeLoop engine dryRun mv
          (organizeFile engine fs sp md fn dryRun mv).2 rest with
      | mk e s =>
        cases e with
        | error err =>
          rw [hrec] at h
          simp at h
        | ok results =>
          rw [hrec] at h
          simp only [Prod.mk.injEq, Except.ok.injEq] at h
          obtain ⟨hr, hsfs⟩ := h
          subst hsfs
          rw [ih l₂ _ results s hrec]
          cases hL : (organizeLoop engine dryRun mv s l₂).1 with
          | error e2 => simp [Except.map]
          | ok r2 => simp [Except.map, ← hr]

theorem organizeLoop_ok_length (engine : OrganizationEngine) (dryRun mv : Bool) :
    ∀ (l : List (List (String × String) × String)) (fs : FS)
      (r : List (String × String)) (fs' : FS),
    organizeLoop engine dryRun mv fs l = (.ok r, fs') → r.length = l.length := by
  intro l
  induction l with
  | nil =>
    intro fs r fs' h
    simp only [organizeLoop] at h
    have := congrArg Prod.fst h
    simp at this
    simp [← this]
  | cons hd rest ih =>
    intro fs r fs' h
    obtain ⟨md, fn⟩ := hd
    cases hlk : lookupAttr md "file_path" with
    | none =>
      rw [organizeLoop_cons_none _ _ _ _ _ _ _ hlk] at h
      exact absurd (congrArg Prod.fst h) (by simp)
    | some sp =>
      rw [organizeLoop_cons_some _ _ _ _ _ _ _ _ hlk] at h
      cases hrec : organizeLoop engine dryRun mv
          (organizeFile engine fs sp md fn dryRun mv).2 rest with
      | mk e s =>
        cases e with
        | error err =>
          rw [hrec] at h
          simp at h
        | ok results =>
          rw [hrec] at h
          simp only [Prod.mk.injEq, Except.ok.injEq] at h
          obtain ⟨hr, _⟩ := h
          rw [← hr]
          simp [ih _ _ _ hrec]

/-- C7: in `organize_files`, a file whose processing fails does not abort
the batch: with the batch split around a failing file (here: its source is
not a file, so `organize_file` raises `FileNotFoundError` and the per-file
`except` records `(source_path, str(e))`), the batch outcome is the
outcomes of the files before it, then the failure entry, then the outcomes
of the files after it — the runs before and after are the very runs
`(.ok r₁, fs₁)` and `(.ok r₂, fs₂)` computed without the failing file,
since the failure leaves the state `fs₁` untouched — and every file
contributes exactly one outcome entry. -/
theorem organizeFiles_partial_failure_isolation
    (engine : OrganizationEngine) (dryRun mv : Bool) (fs fs₁ fs₂ : FS)
    (mds : List (List (String × String))) (fns : List String)
    (pre post : List (List (String × String) × String))
    (md : List (String × String)) (fn : String) (sp : String)
    (r₁ r₂ : List (String × String))
    (hlen : mds.length = fns.length)
    (hz : mds.zip fns = pre ++ (md, fn) :: post)
    (h1 : organizeLoop engine dryRun mv fs pre = (.ok r₁, fs₁))
    (h2 : lookupAttr md "file_path" = some sp)
    (h3 : isFile fs₁ sp = false)
    (h4 : organizeLoop engine dryRun mv fs₁ post = (.ok r₂, fs₂)) :
    organizeFiles engine fs mds fns dryRun mv =
      (.ok (r₁ ++ (sp, "Source file not found: " ++ sp) :: r₂), fs₂) ∧
    r₁.length = pre.length ∧ r₂.length = post.length := by
  refine ⟨?_, organizeLoop_ok_length _ _ _ _ _ _ _ h1,
    organizeLoop_ok_length _ _ _ _ _ _ _ h4⟩
  unfold organizeFiles
  rw [if_neg (fun hne => hne hlen), hz,
    organizeLoop_append engine dryRun mv pre ((md, fn) :: post) fs r₁ fs₁ h1]
  have hstep : organizeLoop engine dryRun mv fs₁ ((md, fn) :: post) =
      (.ok ((sp, "Source file not found: " ++ sp) :: r₂), fs₂) := by
    rw [organizeLoop_cons_some _ _ _ _ _ _ _ _ h2,
      organizeFile_missing engine fs₁ sp md fn dryRun mv h3, h4]
  rw [hstep]
  simp [Except.map]

/-- Witness for C7: three files, the middle one missing from the
filesystem; files 1 and 3 are moved, the middle file contributes its error
entry, and file 1's moved destination persists in the final state. -/
theorem organizeFiles_partial_failure_isolation_witness :
    organizeFiles (OrganizationEngine.create "/cwd" "/dst" none)
      ⟨["/s/f1.jpg", "/s/f3.jpg"], ["/dst"]⟩
      [[("file_path", "/s/f1.jpg")], [("file_path", "/s/f2.jpg")],
       [("file_path", "/s/f3.jpg")]]
      ["n1.jpg", "n2.jpg", "n3.jpg"] false true =
      (.ok [("/s/f1.jpg", "/dst/n1.jpg"),
            ("/s/f2.jpg", "Source file not found: /s/f2.jpg"),
            ("/s/f3.jpg", "/dst/n3.jpg")],
       ⟨["/dst/n3.jpg", "/dst/n1.jpg"], ["/dst"]⟩) ∧
    "/dst/n1.jpg" ∈ (FS.mk ["/dst/n3.jpg", "/dst/n1.jpg"] ["/dst"]).files :=
  ⟨(organizeFiles_partial_failure_isolation
      (OrganizationEngine.create "/cwd" "/dst" none) false true
      ⟨["/s/f1.jpg", "/s/f3.jpg"], ["/dst"]⟩
      ⟨["/dst/n1.jpg", "/s/f3.jpg"], ["/dst"]⟩
      ⟨["/dst/n3.jpg", "/dst/n1.jpg"], ["/dst"]⟩
      [[("file_path", "/s/f1.jpg")], [("file_path", "/s/f2.jpg")],
       [("file_path", "/s/f3.jpg")]]
      ["n1.jpg", "n2.jpg", "n3.jpg"]
      [([("file_path", "/s/f1.jpg")], "n1.jpg")]
      [([("file_path", "/s/f3.jpg")], "n3.jpg")]
      [("file_path", "/s/f2.jpg")] "n2.jpg" "/s/f2.jpg"
      [("/s/f1.jpg", "/dst/n1.jpg")] [("/s/f3.jpg", "/dst/n3.jpg")]
      (by decide) (by decide) (by decide) (by decide) (by decide) (by decide)).1,
   by decide⟩

end FotoFiler
